import Mathlib

/-!
Verification of the s3cat download-orchestration core (`main.go`) against its
natural-language specification.  The Go source is shallowly embedded: pure
helpers (`parseArg`, `path.Clean`/`path.Join`, the `.gz` suffix test) become
Lean functions on character lists; the paginated lister, the cache check, the
download loop and the output loop become functions over explicit stores and
explicit action traces.
-/

namespace S3Cat

abbrev Chars := List Char

/-! ## Go `path` package model

`path.Clean` (slash-separated, lexical): split on `/`, drop empty and `.`
components, resolve `..` against a stack (dropping `..` at the root of a
rooted path), rejoin; empty input yields `.`, a rooted empty result yields
`/`, a relative empty result yields `.`.
`path.Join` joins the elements from the first non-empty one with `/` and
cleans the result; all-empty input yields the empty string. -/

/-- Split a character list on `/`; always returns a non-empty list of
components (the empty string splits to `[[]]`). -/
def splitSl : Chars → List Chars
  | [] => [[]]
  | c :: cs =>
    let r := splitSl cs
    if c = '/' then [] :: r
    else
      match r with
      | [] => [[c]]
      | h :: t => (c :: h) :: t

/-- Join components with `/` (inverse of `splitSl`). -/
def joinSl : List Chars → Chars
  | [] => []
  | [p] => p
  | p :: q :: ps => p ++ '/' :: joinSl (q :: ps)

/-- The component-stack pass of `path.Clean`: skip empty and `.`, resolve
`..` (popping a previous component, kept at the head of a relative path,
dropped at the root of a rooted path), push everything else. -/
def cleanStack (rooted : Bool) : List Chars → List Chars → List Chars
  | acc, [] => acc.reverse
  | acc, c :: cs =>
    if c = ([] : Chars) ∨ c = ['.'] then cleanStack rooted acc cs
    else if c = ['.', '.'] then
      match acc with
      | [] => if rooted then cleanStack rooted [] cs
              else cleanStack rooted [['.', '.']] cs
      | top :: rest =>
        if top = ['.', '.'] then cleanStack rooted (c :: acc) cs
        else cleanStack rooted rest cs
    else cleanStack rooted (c :: acc) cs

/-- Go `path.Clean` on character lists. -/
def cleanChars (s : Chars) : Chars :=
  match s with
  | [] => ['.']
  | c :: _ =>
    let rooted : Bool := c == '/'
    let comps := cleanStack rooted [] (splitSl s)
    if rooted then '/' :: joinSl comps
    else if comps = [] then ['.'] else joinSl comps

/-- Go `path.Clean`. -/
def goClean (s : String) : String := String.mk (cleanChars s.data)

/-- Go `path.Join`: skip leading empty elements, join the rest with `/`,
then `Clean`; all elements empty gives `""`. -/
def goJoin : List String → String
  | [] => ""
  | e :: es =>
    if e = "" then goJoin es
    else goClean (String.mk (joinSl ((e :: es).map String.data)))

/-- Go `strings.HasSuffix(s, ".gz")` on character lists: the last three
characters are `.`, `g`, `z`. -/
def endsGz (s : Chars) : Bool :=
  match s.reverse with
  | a :: b :: c :: _ => a == 'z' && (b == 'g' && c == '.')
  | _ => false

/-- A normal path component: non-empty, not `.`, not `..`, slash-free.
A path whose components are all normal is untouched by `path.Clean`. -/
def normComp (c : Chars) : Prop :=
  c ≠ [] ∧ c ≠ ['.'] ∧ c ≠ ['.', '.'] ∧ '/' ∉ c

instance (c : Chars) : Decidable (normComp c) := by
  unfold normComp
  infer_instance

/-- `strings.HasSuffix(s, ".gz")`. -/
def endsGzS (s : String) : Bool := endsGz s.data

/-! ## Remote objects and local paths -/

/-- A listed remote object: bucket, key, and the size reported by the
listing (`*object.raw.Size`).  The `objectWrapper.local` flag is carried
separately where needed. -/
structure Obj where
  bucket : String
  key : String
  listedSize : Nat
  deriving DecidableEq, Repr

/-- `objectWrapper.LocalPath`: `path.Join(tmp, w.bucket, *w.raw.Key)`. -/
def localPath (tmp : String) (o : Obj) : String :=
  goJoin [tmp, o.bucket, o.key]

/-! ## `parseArg` -/

/-- Go `path.IsAbs`: non-empty and starting with `/`. -/
def goIsAbs (s : String) : Bool :=
  match s.data with
  | '/' :: _ => true
  | _ => false

/-- The byte loop of `parseArg` on `arg[1:]`: characters before the first
`/` form the bucket, everything after it (verbatim, further `/` included)
forms the prefix. -/
def splitBucket : Chars → Chars × Chars
  | [] => ([], [])
  | c :: cs =>
    if c = '/' then ([], cs)
    else
      let r := splitBucket cs
      (c :: r.1, r.2)

/-- `parseArg`: fails unless the argument starts with `/`; otherwise splits
`arg[1:]` at the first `/` into bucket and prefix. -/
def parseArg (arg : String) : Except String (String × String) :=
  if goIsAbs arg then
    let r := splitBucket (arg.data.drop 1)
    .ok (String.mk r.1, String.mk r.2)
  else
    .error "PATTERN must be a start with '/'"

/-- `parseArgs`: parse each pattern in order, failing on the first bad one. -/
def parseArgs : List String → Except String (List (String × String))
  | [] => .ok []
  | a :: as =>
    match parseArg a with
    | .error e => .error e
    | .ok bp =>
      match parseArgs as with
      | .error e => .error e
      | .ok rest => .ok (bp :: rest)

/-! ## `listS3Object` / `listS3Objects` (paginated listing)

A listed entry is a key/size pair (`s3.Object`).  The remote service is
modelled as the sequence of responses it returns along the continuation
chain: the `i`-th element is the response to the request carrying the
`i`-th continuation token (the first carries none), and the service
returns a next token exactly while further responses remain — this bakes
in the assumption that the service eventually stops returning a cursor.
Each response either fails or carries a page of entries. -/

/-- A raw listing entry (`s3.Object`): key and size. -/
structure SObj where
  key : String
  size : Nat
  deriving DecidableEq, Repr

/-- `listS3Object`: issue the requests along the continuation chain in
order, wrapping each page's entries with the query's bucket, concatenating
pages, propagating the first error. -/
def listS3Object (bucket : String) : List (Except String (List SObj)) → Except String (List Obj)
  | [] => .ok []
  | r :: rest =>
    match r with
    | .error e => .error ("failed to list S3 objects : " ++ e)
    | .ok page =>
      match listS3Object bucket rest with
      | .error e => .error e
      | .ok tailObjs =>
        .ok (page.map (fun s => { bucket := bucket, key := s.key, listedSize := s.size }) ++ tailObjs)

/-- `listS3Objects`: run the paginated listing once per parsed input, in
argument order, concatenating the results and propagating the first
error. -/
def listS3Objects : List (String × List (Except String (List SObj))) → Except String (List Obj)
  | [] => .ok []
  | (bucket, svc) :: rest =>
    match listS3Object bucket svc with
    | .error e => .error e
    | .ok objs =>
      match listS3Objects rest with
      | .error e => .error e
      | .ok tailObjs => .ok (objs ++ tailObjs)

/-! ## Local file store, cache check, download phase

A local file is abstracted by the observations the program makes of it:
its byte length (`os.Stat` / the bytes written by a download), whether its
bytes begin with a valid gzip header, the lines the scanner yields when
reading it raw or through the gzip reader, and the scanner's terminal
condition in each mode (clean end-of-file, or a read/decompression error —
which `bufio.Scanner` reports only through the never-consulted
`scanner.Err`).  The store maps a path to the file at it, `none` meaning
`os.Stat`/`os.Open` fail. -/

/-- How a scan of the file ends: clean EOF, or a read/decompression error
(available only via `scanner.Err`). -/
inductive ScanEnd where
  | eof : ScanEnd
  | fail (e : String) : ScanEnd
  deriving DecidableEq, Repr

/-- Observable content of a local file. -/
structure FileData where
  size : Nat
  rawLines : List String
  rawEnd : ScanEnd
  gzHeaderOk : Bool
  gzLines : List String
  gzEnd : ScanEnd
  deriving DecidableEq, Repr

/-- The local filesystem: `none` models any stat/open failure. -/
def Store := String → Option FileData

/-- Write a file (create/truncate + download body). -/
def updStore (st : Store) (p : String) (d : FileData) : Store :=
  fun q => if q = p then some d else st q

/-- The cache check (`main.go` lines 108–112): stat the local path; the
object is local iff the stat succeeds and the size equals the listed size.
Any stat failure means "not cached"; no error is ever reported. -/
def isCached (st : Store) (tmp : String) (o : Obj) : Bool :=
  match st (localPath tmp o) with
  | none => false
  | some fd => fd.size == o.listedSize

/-- The spec's wording of the cache predicate: a file exists at the
deterministic path and its byte length equals the recorded size. -/
def cachedSpec (st : Store) (tmp : String) (o : Obj) : Prop :=
  ∃ fd, st (localPath tmp o) = some fd ∧ fd.size = o.listedSize

/-! ## Output phase (`main.go` lines 210–234) -/

/-- Emit one object: open the local file (failure is fatal); if the local
path ends in `.gz`, read through the gzip reader (an invalid header is
fatal), otherwise read raw; scan lines until the scanner stops.  The
scanner's terminal condition is never consulted (`scanner.Err` is not
checked), so a mid-stream read/decompression error is indistinguishable
from EOF here. -/
def outputObject (st : Store) (tmp : String) (o : Obj) : Except String (List String) :=
  let fp := localPath tmp o
  match st fp with
  | none => .error ("failed to open '" ++ fp ++ "'")
  | some fd =>
    if endsGzS fp then
      if fd.gzHeaderOk then .ok fd.gzLines
      else .error ("failed to open '" ++ fp ++ "' as gzip")
    else .ok fd.rawLines

/-- The output loop: objects in listing order, strictly sequentially,
stopping at the first fatal error, concatenating the emitted lines. -/
def outputPhase (st : Store) (tmp : String) : List Obj → Except String (List String)
  | [] => .ok []
  | o :: os =>
    match outputObject st tmp o with
    | .error e => .error e
    | .ok ls =>
      match outputPhase st tmp os with
      | .error e => .error e
      | .ok rest => .ok (ls ++ rest)

/-! ## Download phase, store level (`main.go` lines 108–207)

The run first computes every object's cache flag against the store as it
was before any download (lines 108–112), then downloads exactly the
non-cached objects, each task writing the remote body to the object's
local path.  `remote o` is the file the download of `o` produces locally
(a plain copy of the object body). -/

/-- The objects the run downloads: those whose cache flag is false. -/
def dlList (st : Store) (tmp : String) (objs : List Obj) : List Obj :=
  objs.filter (fun o => !(isCached st tmp o))

/-- Perform the downloads of a task list in some completion order. -/
def writeAll (remote : Obj → FileData) (tmp : String) : List Obj → Store → Store
  | [], st => st
  | o :: os, st => writeAll remote tmp os (updStore st (localPath tmp o) (remote o))

/-- The whole download phase: flags from the initial store, then all
non-cached objects written (here in listing order; permutation invariance
over completion orders is proved separately). -/
def downloadPhase (remote : Obj → FileData) (tmp : String) (objs : List Obj) (st : Store) : Store :=
  writeAll remote tmp (dlList st tmp objs) st

/-! ## Download scheduler (`main.go` lines 141–207), small-step model

The main loop acquires an admission slot (a send on the buffered channel
`dsem`) and then hands the task to the error group; the task body
unconditionally creates/truncates its destination file and then runs the
download under the shared group context; it releases its slot on return.
The group records the first error returned by any task and cancels the
shared context at that moment; a download run under a cancelled context
fails with the context-cancellation error.  The main loop itself never
consults the context, so it keeps acquiring slots and spawning tasks after
cancellation.

States carry the per-task prescribed download results (`none` = the
download would succeed), the gate capacity, the main loop position, the
running set, the cancellation flag, the recorded first error, the indices
whose destination file has been created/truncated, and the indices that
were spawned after cancellation had propagated.  An execution is a list of
actions, each either the main loop spawning the next task (acquire slot +
`deg.Go`) or a running task executing to completion. -/

/-- The error a download returns under a cancelled context. -/
def ctxErr : String := "context canceled"

structure SchedState where
  tasks : List (Option String)
  cap : Nat
  nextIdx : Nat
  running : List Nat
  cancelled : Bool
  firstErr : Option String
  created : List Nat
  lateSpawns : List Nat
  deriving DecidableEq, Repr

/-- Scheduler actions: the main loop spawns the next task, or running task
`i` executes to completion. -/
inductive SchedAct where
  | spawn : SchedAct
  | finish (i : Nat) : SchedAct
  deriving DecidableEq, Repr

/-- One interleaving step.  `spawn` needs a pending task and a free slot —
and nothing else: cancellation does not stop the main loop.  `finish i`
runs task `i` to completion: the file is created/truncated
unconditionally, then the download yields the context error if the group
was already cancelled, else the prescribed result; an error, if it is the
first, is recorded and cancels the group. -/
def applyAct (s : SchedState) : SchedAct → Option SchedState
  | .spawn =>
    if s.nextIdx < s.tasks.length ∧ s.running.length < s.cap then
      some { s with
        nextIdx := s.nextIdx + 1,
        running := s.nextIdx :: s.running,
        lateSpawns := if s.cancelled then s.nextIdx :: s.lateSpawns else s.lateSpawns }
    else none
  | .finish i =>
    if i ∈ s.running then
      let res : Option String := if s.cancelled then some ctxErr else s.tasks.getD i none
      some { s with
        running := s.running.erase i,
        created := i :: s.created,
        cancelled := s.cancelled || res.isSome,
        firstErr := s.firstErr <|> res }
    else none

/-- Run a list of actions; `none` if some action was not enabled. -/
def runActs (s : SchedState) : List SchedAct → Option SchedState
  | [] => some s
  | a :: as =>
    match applyAct s a with
    | none => none
    | some s' => runActs s' as

/-- The initial scheduler state for a task list and a gate capacity. -/
def initSched (tasks : List (Option String)) (cap : Nat) : SchedState :=
  { tasks := tasks, cap := cap, nextIdx := 0, running := [],
    cancelled := false, firstErr := none, created := [], lateSpawns := [] }

/-- Construction of the admission gate, `make(chan ..., n)` with the raw
configured concurrency: it fails (panics) for a negative size, otherwise
yields a gate of that capacity. -/
def mkSem (n : Int) : Option Nat :=
  if n < 0 then none else some n.toNat

/-! ## One download task's body (`main.go` lines 152–203)

The directory check: stat the parent; if it does not exist, create it
(failure calls `logFatal`); any other stat error calls `logFatal`; if it
exists but is not a directory, `logFatal`.  `logFatal` prints to stderr
and calls `os.Exit(1)` — the process dies at once, nothing is returned to
the error group.  Only the create and download failures are returned as
the task's result. -/

/-- Result of `os.Stat` on the parent directory. -/
inductive DirStat where
  | notExist : DirStat
  | statErr (e : String) : DirStat
  | file : DirStat
  | dir : DirStat
  deriving DecidableEq, Repr

/-- A task's outcome: success, an error returned through the error group,
or an immediate process exit (`logFatal`). -/
inductive TaskOutcome where
  | ok : TaskOutcome
  | groupErr (e : String) : TaskOutcome
  | exitProc (e : String) : TaskOutcome
  deriving DecidableEq, Repr

/-- The task body after the directory is in place: create/truncate the
file, then download; both failures are returned through the group. -/
def afterDirSteps (fp : String) (createRes dlRes : Option String) : TaskOutcome :=
  match createRes with
  | some e => .groupErr ("failed to create local file '" ++ fp ++ "' : " ++ e)
  | none =>
    match dlRes with
    | some e => .groupErr ("failed to download file '" ++ fp ++ "' : " ++ e)
    | none => .ok

/-- One download task, given the parent-directory stat result, the mkdir
result (consulted only when the parent is absent), and the create and
download results. -/
def downloadTask (dir fp : String) (ds : DirStat) (mkdirRes createRes dlRes : Option String) :
    TaskOutcome :=
  match ds with
  | .notExist =>
    match mkdirRes with
    | some e => .exitProc ("failed to create directory : " ++ e)
    | none => afterDirSteps fp createRes dlRes
  | .statErr e => .exitProc ("failed to stat : " ++ e)
  | .file => .exitProc ("'" ++ dir ++ "' is not a directory")
  | .dir => afterDirSteps fp createRes dlRes

/-! ## Concrete example values used by witnesses and counterexamples -/

/-- A plain (non-gz) object. -/
def exObjPlain : Obj := { bucket := "b", key := "data.txt", listedSize := 4 }

/-- An S3 folder-marker style object: its key ends in `/`, not in `.gz`,
but its cleaned local path ends in `.gz`. -/
def exObjSlash : Obj := { bucket := "b", key := "a.gz/", listedSize := 0 }

/-- An empty local file: no lines, not a valid gzip stream. -/
def exFileNoGz : FileData :=
  { size := 0, rawLines := [], rawEnd := .eof, gzHeaderOk := false, gzLines := [], gzEnd := .eof }

/-- A store holding only the (empty) download of `exObjSlash`. -/
def exStoreSlash : Store :=
  fun p => if p = "/tmp/s3cat/b/a.gz" then some exFileNoGz else none

/-- An object whose key genuinely ends in `.gz`. -/
def exObjGz : Obj := { bucket := "b", key := "a.gz", listedSize := 1 }

/-- A local file whose scan ends in a read error rather than EOF. -/
def exFileBadEnd : FileData :=
  { size := 4, rawLines := ["l1", "l2"], rawEnd := .fail "unexpected EOF",
    gzHeaderOk := false, gzLines := [], gzEnd := .eof }

/-- The same file with a clean EOF. -/
def exFileOkEnd : FileData :=
  { size := 4, rawLines := ["l1", "l2"], rawEnd := .eof,
    gzHeaderOk := false, gzLines := [], gzEnd := .eof }

/-- Store holding the failing-scan file for `exObjPlain`. -/
def exStoreBadEnd : Store :=
  fun p => if p = "/tmp/s3cat/b/data.txt" then some exFileBadEnd else none

/-- Store holding the clean file for `exObjPlain`. -/
def exStoreOkEnd : Store :=
  fun p => if p = "/tmp/s3cat/b/data.txt" then some exFileOkEnd else none

/-- Scheduler state after `[spawn, finish 0]` from
`initSched [some "boom", none] 1`: task 0 failed, the group is cancelled,
task 1 is not yet spawned. -/
def exSchedMid : SchedState :=
  { tasks := [some "boom", none], cap := 1, nextIdx := 1, running := [],
    cancelled := true, firstErr := some "boom", created := [0], lateSpawns := [] }

/-- Scheduler state after the full trace
`[spawn, finish 0, spawn, finish 1]`: task 1 was spawned after
cancellation, its file was created, and the recorded error is still the
first one. -/
def exSchedFin : SchedState :=
  { tasks := [some "boom", none], cap := 1, nextIdx := 2, running := [],
    cancelled := true, firstErr := some "boom", created := [1, 0], lateSpawns := [1] }

/-- Two objects with distinct local paths. -/
def exObjA : Obj := { bucket := "b", key := "x", listedSize := 2 }

/-- Second object, distinct path from `exObjA`. -/
def exObjB : Obj := { bucket := "b", key := "y", listedSize := 3 }

/-- Remote content of `exObjA`. -/
def exFileA : FileData :=
  { size := 2, rawLines := ["ax"], rawEnd := .eof, gzHeaderOk := false, gzLines := [], gzEnd := .eof }

/-- Remote content of `exObjB`. -/
def exFileB : FileData :=
  { size := 3, rawLines := ["by"], rawEnd := .eof, gzHeaderOk := false, gzLines := [], gzEnd := .eof }

/-- The remote bodies of the two example objects. -/
def exRemote : Obj → FileData :=
  fun o => if o.key = "x" then exFileA else exFileB

/-- The empty local filesystem. -/
def exEmptyStore : Store := fun _ => none

/-- Scheduler state after one `spawn` from `initSched [none, none] 2`. -/
def exSchedOne : SchedState :=
  { tasks := [none, none], cap := 2, nextIdx := 1, running := [0],
    cancelled := false, firstErr := none, created := [], lateSpawns := [] }

/-- Invariant of reachable scheduler states: the group is cancelled exactly
when an error has been recorded, at most `cap` tasks hold slots, and while
no error is recorded every executed task's prescribed download succeeded. -/
def SchedInv (s : SchedState) : Prop :=
  s.cancelled = s.firstErr.isSome
  ∧ s.running.length ≤ s.cap
  ∧ (s.firstErr = none → ∀ i ∈ s.created, s.tasks.getD i none = none)

/-! # Theorems -/

/-! ## Helper lemmas: `parseArg` -/

lemma splitBucket_no_slash (b : Chars) (h : '/' ∉ b) : splitBucket b = (b, []) := by
  induction b with
  | nil => rfl
  | cons c cs ih =>
    have hc : ¬ c = '/' := fun e => h (e ▸ List.mem_cons_self c cs)
    simp [splitBucket, hc, ih (fun m => h (List.mem_cons_of_mem _ m))]

lemma splitBucket_append (b p : Chars) (h : '/' ∉ b) :
    splitBucket (b ++ '/' :: p) = (b, p) := by
  induction b with
  | nil => simp [splitBucket]
  | cons c cs ih =>
    have hc : ¬ c = '/' := fun e => h (e ▸ List.mem_cons_self c cs)
    simp [splitBucket, hc, ih (fun m => h (List.mem_cons_of_mem _ m))]

/-- C4: a pattern `/b/p...` (with `b` slash-free) parses to bucket `b` and
the verbatim remainder as the prefix; `/b` parses to bucket `b` and an
empty prefix; any argument not starting with `/` is rejected with the
invalid-pattern error. -/
theorem c4_parse_patterns :
    ∀ (b p : Chars), '/' ∉ b →
      parseArg (String.mk ('/' :: (b ++ '/' :: p))) = .ok (String.mk b, String.mk p)
      ∧ parseArg (String.mk ('/' :: b)) = .ok (String.mk b, String.mk [])
      ∧ ∀ (s : String), goIsAbs s = false →
          parseArg s = .error "PATTERN must be a start with '/'" := by
  intro b p h
  refine ⟨?_, ?_, ?_⟩
  · simp [parseArg, goIsAbs, splitBucket_append b p h]
  · simp [parseArg, goIsAbs, splitBucket_no_slash b h]
  · intro s hs
    simp [parseArg, hs]

/-- Witness for C4 at `/b/p/q`, `/b` and `b`. -/
theorem c4_witness :
    parseArg (String.mk ('/' :: (['b'] ++ '/' :: ['p', '/', 'q'])))
      = .ok (String.mk ['b'], String.mk ['p', '/', 'q'])
    ∧ parseArg (String.mk ('/' :: ['b'])) = .ok (String.mk ['b'], String.mk [])
    ∧ parseArg "b" = .error "PATTERN must be a start with '/'" :=
  ⟨(c4_parse_patterns ['b'] ['p', '/', 'q'] (by decide)).1,
   (c4_parse_patterns ['b'] [] (by decide)).2.1,
   (c4_parse_patterns [] [] (by decide)).2.2 "b" (by decide)⟩

/-! ## Helper lemmas: pagination -/

lemma listS3Object_ok (bucket : String) (pages : List (List SObj)) :
    listS3Object bucket (pages.map Except.ok) =
      .ok (pages.flatMap (fun page =>
        page.map (fun s => { bucket := bucket, key := s.key, listedSize := s.size }))) := by
  induction pages with
  | nil => rfl
  | cons pg pgs ih => simp [listS3Object, ih, List.flatMap_cons]

/-- C5: with every paginated request succeeding, the lister returns the
exact concatenation of all pages in cursor order (no entry duplicated or
dropped, termination built into the finite continuation chain), and across
several input patterns the results are concatenated in argument order with
no deduplication. -/
theorem c5_pagination :
    ∀ (patterns : List (String × List (List SObj))),
      listS3Objects (patterns.map (fun pr => (pr.1, pr.2.map Except.ok))) =
        .ok (patterns.flatMap (fun pr => pr.2.flatMap (fun page =>
          page.map (fun s => { bucket := pr.1, key := s.key, listedSize := s.size })))) := by
  intro patterns
  induction patterns with
  | nil => rfl
  | cons pr rest ih => simp [listS3Objects, listS3Object_ok, ih, List.flatMap_cons]

/-! ## C6: the cache check -/

/-- C6: `isCached` is true exactly when the store holds a file at the
deterministic local path whose byte length equals the listed size, and any
stat failure yields false; the check is a total boolean function of the
store (it cannot raise and has no side effects). -/
theorem c6_is_cached :
    ∀ (st : Store) (tmp : String) (o : Obj),
      (isCached st tmp o = true ↔ cachedSpec st tmp o)
      ∧ (st (localPath tmp o) = none → isCached st tmp o = false) := by
  intro st tmp o
  unfold isCached cachedSpec
  cases h : st (localPath tmp o) <;> simp [h]

/-- Witness for C6: on the empty filesystem the stat fails and the object
is reported not cached. -/
theorem c6_witness : isCached exEmptyStore "/tmp/s3cat" exObjPlain = false :=
  (c6_is_cached exEmptyStore "/tmp/s3cat" exObjPlain).2 rfl

/-! ## C8: the directory collision check -/

/-- C8 counterexample: when the parent path exists as a plain file, the
task's directory error is not returned through the error group at all —
the task calls `logFatal`, printing the error and exiting the process
immediately. -/
theorem c8_counterexample :
    (¬ ∃ e, downloadTask "/tmp/s3cat/b" "/tmp/s3cat/b/k" DirStat.file none none none
        = TaskOutcome.groupErr e)
    ∧ downloadTask "/tmp/s3cat/b" "/tmp/s3cat/b/k" DirStat.file none none none
        = TaskOutcome.exitProc "'/tmp/s3cat/b' is not a directory" := by
  refine ⟨?_, rfl⟩
  rintro ⟨e, h⟩
  simp [downloadTask] at h

/-- C8 amended: when a task's local parent path exists but is not a
directory, the task terminates the whole process at once with the
directory error (`logFatal`, exit status 1), bypassing the error group:
the error is never a task result, so no first-error arbitration or
context cancellation is involved. -/
theorem c8_dir_collision :
    ∀ (dir fp : String) (mkdirRes createRes dlRes : Option String),
      downloadTask dir fp DirStat.file mkdirRes createRes dlRes
        = TaskOutcome.exitProc ("'" ++ dir ++ "' is not a directory")
      ∧ ∀ e, downloadTask dir fp DirStat.file mkdirRes createRes dlRes
          ≠ TaskOutcome.groupErr e := by
  intro dir fp mkdirRes createRes dlRes
  exact ⟨rfl, fun e h => by simp [downloadTask] at h⟩

/-- Witness for C8 (amended) at a concrete parent path. -/
theorem c8_witness :
    downloadTask "/tmp/s3cat/b" "/tmp/s3cat/b/k" DirStat.file none none none
      = TaskOutcome.exitProc "'/tmp/s3cat/b' is not a directory" :=
  (c8_dir_collision "/tmp/s3cat/b" "/tmp/s3cat/b/k" none none none).1

/-! ## Helper lemmas: `path.Clean` on normal components -/

lemma splitSl_ne_nil : ∀ s : Chars, splitSl s ≠ [] := by
  intro s
  cases s with
  | nil => simp [splitSl]
  | cons c cs =>
    by_cases hc : c = '/'
    · simp [splitSl, hc]
    · cases h : splitSl cs with
      | nil => simp [splitSl, hc, h]
      | cons a t => simp [splitSl, hc, h]

lemma splitSl_append_slash (xs ys : Chars) :
    splitSl (xs ++ '/' :: ys) = splitSl xs ++ splitSl ys := by
  induction xs with
  | nil => simp [splitSl]
  | cons c cs ih =>
    by_cases hc : c = '/'
    · subst hc
      simp [splitSl, ih]
    · obtain ⟨h, t, hht⟩ : ∃ h t, splitSl cs = h :: t := by
        cases hsc : splitSl cs with
        | nil => exact absurd hsc (splitSl_ne_nil cs)
        | cons h t => exact ⟨h, t, rfl⟩
      simp [splitSl, hc, ih, hht]

lemma splitSl_no_slash (p : Chars) (h : '/' ∉ p) : splitSl p = [p] := by
  induction p with
  | nil => rfl
  | cons c cs ih =>
    have hc : ¬ c = '/' := fun e => h (e ▸ List.mem_cons_self c cs)
    simp [splitSl, hc, ih (fun m => h (List.mem_cons_of_mem _ m))]

lemma joinSl_cons_cons (c : Char) (h : Chars) (t : List Chars) :
    joinSl ((c :: h) :: t) = c :: joinSl (h :: t) := by
  cases t <;> simp [joinSl]

lemma joinSl_splitSl : ∀ s : Chars, joinSl (splitSl s) = s := by
  intro s
  induction s with
  | nil => rfl
  | cons c cs ih =>
    obtain ⟨h, t, hht⟩ : ∃ h t, splitSl cs = h :: t := by
      cases hsc : splitSl cs with
      | nil => exact absurd hsc (splitSl_ne_nil cs)
      | cons h t => exact ⟨h, t, rfl⟩
    by_cases hc : c = '/'
    · subst hc
      rw [hht] at ih
      simp [splitSl, hht, joinSl, ih]
    · rw [hht] at ih
      simp [splitSl, hc, hht, joinSl_cons_cons, ih]

lemma joinSl_append (xs ys : List Chars) (hx : xs ≠ []) (hy : ys ≠ []) :
    joinSl (xs ++ ys) = joinSl xs ++ '/' :: joinSl ys := by
  induction xs with
  | nil => exact absurd rfl hx
  | cons x xt ih =>
    cases xt with
    | nil =>
      cases ys with
      | nil => exact absurd rfl hy
      | cons y yt => simp [joinSl]
    | cons x2 xt2 =>
      have h2 := ih (by simp)
      have hshape : (x :: x2 :: xt2) ++ ys = x :: ((x2 :: xt2) ++ ys) := by simp
      rw [hshape]
      have : joinSl (x :: ((x2 :: xt2) ++ ys)) = x ++ '/' :: joinSl ((x2 :: xt2) ++ ys) := by
        cases ys with
        | nil => exact absurd rfl hy
        | cons y yt => simp [joinSl]
      rw [this, h2]
      simp [joinSl]

lemma cleanStack_cons (rooted : Bool) (acc : List Chars) (c : Chars) (cs : List Chars) :
    cleanStack rooted acc (c :: cs)
      = if c = ([] : Chars) ∨ c = ['.'] then cleanStack rooted acc cs
        else if c = ['.', '.'] then
          (match acc with
           | [] => if rooted then cleanStack rooted [] cs else cleanStack rooted [['.', '.']] cs
           | top :: rest => if top = ['.', '.'] then cleanStack rooted (c :: acc) cs
                            else cleanStack rooted rest cs)
        else cleanStack rooted (c :: acc) cs := by
  cases acc <;> rfl

lemma cleanStack_norm (comps : List Chars) (rooted : Bool) (acc : List Chars)
    (h : ∀ c ∈ comps, normComp c) :
    cleanStack rooted acc comps = acc.reverse ++ comps := by
  induction comps generalizing acc with
  | nil => simp [cleanStack]
  | cons c cs ih =>
    obtain ⟨h1, h2, h3, _⟩ := h c (List.mem_cons_self c cs)
    have hcond : ¬ (c = ([] : Chars) ∨ c = ['.']) := by
      rintro (e | e)
      · exact h1 e
      · exact h2 e
    rw [cleanStack_cons, if_neg hcond, if_neg h3,
      ih (c :: acc) (fun x m => h x (List.mem_cons_of_mem _ m))]
    simp

lemma cleanStack_cons_empty (rooted : Bool) (acc : List Chars) (cs : List Chars) :
    cleanStack rooted acc ([] :: cs) = cleanStack rooted acc cs := by
  rw [cleanStack_cons]
  simp

/-- `path.Clean` of a rooted path, reduced to the component stack. -/
lemma cleanChars_rooted (rest : Chars) :
    cleanChars ('/' :: rest) = '/' :: joinSl (cleanStack true [] ([] :: splitSl rest)) := by
  have h1 : splitSl ('/' :: rest) = [] :: splitSl rest := by
    simp [splitSl]
  simp [cleanChars, h1]

/-- For a temp root `/t`, a bucket `b` and a key `k` whose slash-split
components are all normal, `path.Join(/t, b, k)` is exactly
`/t` + `/` + `b` + `/` + `k`. -/
lemma localPath_norm (t b k : Chars) (sz : Nat)
    (ht : ∀ c ∈ splitSl t, normComp c) (hb : normComp b) (hk : ∀ c ∈ splitSl k, normComp c) :
    localPath (String.mk ('/' :: t)) { bucket := String.mk b, key := String.mk k, listedSize := sz }
      = String.mk ('/' :: (t ++ '/' :: (b ++ '/' :: k))) := by
  have hmk : (String.mk ('/' :: t)) ≠ "" := by
    intro e
    exact List.noConfusion (congrArg String.data e)
  unfold localPath goJoin
  rw [if_neg hmk]
  have hdata : ([String.mk ('/' :: t), String.mk b, String.mk k].map String.data)
      = ['/' :: t, b, k] := rfl
  rw [hdata]
  have hjoin : joinSl ['/' :: t, b, k] = '/' :: (t ++ '/' :: (b ++ '/' :: k)) := by
    simp [joinSl]
  rw [hjoin]
  unfold goClean
  have hsplit : splitSl (t ++ '/' :: (b ++ '/' :: k))
      = splitSl t ++ [b] ++ splitSl k := by
    rw [splitSl_append_slash, splitSl_append_slash, splitSl_no_slash b hb.2.2.2]
    simp
  have hnorm : ∀ c ∈ splitSl t ++ [b] ++ splitSl k, normComp c := by
    intro c hmem
    rcases List.mem_append.mp hmem with hmem2 | hmem2
    · rcases List.mem_append.mp hmem2 with hmem3 | hmem3
      · exact ht c hmem3
      · rw [List.mem_singleton.mp hmem3]
        exact hb
    · exact hk c hmem2
  have hstack : cleanStack true [] ([] :: (splitSl t ++ [b] ++ splitSl k))
      = splitSl t ++ [b] ++ splitSl k := by
    rw [cleanStack_cons_empty, cleanStack_norm _ _ _ hnorm]
    simp
  have hrejoin : joinSl (splitSl t ++ [b] ++ splitSl k)
      = t ++ '/' :: (b ++ '/' :: k) := by
    rw [List.append_assoc, joinSl_append (splitSl t) ([b] ++ splitSl k)
      (splitSl_ne_nil t) (by simp), joinSl_append [b] (splitSl k) (by simp) (splitSl_ne_nil k),
      joinSl_splitSl, joinSl_splitSl]
    simp [joinSl]
  rw [show (String.mk ('/' :: (t ++ '/' :: (b ++ '/' :: k)))).data
      = '/' :: (t ++ '/' :: (b ++ '/' :: k)) from rfl]
  rw [cleanChars_rooted, hsplit, hstack, hrejoin]

lemma endsGz_append (x k : Chars) (hk : k ≠ []) : endsGz (x ++ '/' :: k) = endsGz k := by
  unfold endsGz
  have hrev : (x ++ '/' :: k).reverse = k.reverse ++ '/' :: x.reverse := by
    simp
  rw [hrev]
  cases hkr : k.reverse with
  | nil => exact absurd (by simpa using congrArg List.reverse hkr) hk
  | cons a t1 =>
    cases t1 with
    | nil =>
      cases x.reverse with
      | nil => simp
      | cons y ys => simp
    | cons b2 t2 =>
      cases t2 with
      | nil => simp
      | cons c3 t3 => simp

/-- C3 amended: the output phase applies gzip decompression exactly when
the object's cleaned local path — not its key — ends in `.gz`.  For keys
(and temp roots and buckets) whose slash-split components are normal
(non-empty, not `.`/`..`), the two coincide: gzip is applied, and fails on
an invalid gzip header, iff the key ends in `.gz`, and otherwise the raw
lines are emitted.  The general key-based claim is refuted by
`c3_counterexample`. -/
theorem c3_gz_iff_key :
    ∀ (o : Obj) (t : Chars) (st : Store) (fd : FileData),
      (∀ c ∈ splitSl t, normComp c) →
      normComp o.bucket.data →
      (∀ c ∈ splitSl o.key.data, normComp c) →
      (endsGzS (localPath (String.mk ('/' :: t)) o) = endsGzS o.key)
      ∧ (st (localPath (String.mk ('/' :: t)) o) = some fd →
          (endsGzS o.key = true →
            outputObject st (String.mk ('/' :: t)) o
              = (if fd.gzHeaderOk then .ok fd.gzLines
                 else .error ("failed to open '" ++ localPath (String.mk ('/' :: t)) o ++ "' as gzip")))
          ∧ (endsGzS o.key = false →
            outputObject st (String.mk ('/' :: t)) o = .ok fd.rawLines)) := by
  intro o t st fd ht hb hk
  have hk' : o.key.data ≠ [] := by
    intro e
    have hmem : ([] : Chars) ∈ splitSl o.key.data := by
      rw [e]
      simp [splitSl]
    exact (hk [] hmem).1 rfl
  have hpath : localPath (String.mk ('/' :: t)) o
      = String.mk ('/' :: (t ++ '/' :: (o.bucket.data ++ '/' :: o.key.data))) :=
    localPath_norm t o.bucket.data o.key.data o.listedSize ht hb hk
  have hsuffix : endsGzS (localPath (String.mk ('/' :: t)) o) = endsGzS o.key := by
    rw [hpath]
    show endsGz ('/' :: (t ++ '/' :: (o.bucket.data ++ '/' :: o.key.data))) = endsGz o.key.data
    have hshape : '/' :: (t ++ '/' :: (o.bucket.data ++ '/' :: o.key.data))
        = ('/' :: t) ++ '/' :: (o.bucket.data ++ '/' :: o.key.data) := by simp
    rw [hshape, endsGz_append _ _ (by simp), endsGz_append _ _ hk']
  refine ⟨hsuffix, fun hst => ⟨fun hgz => ?_, fun hngz => ?_⟩⟩
  · simp only [outputObject]
    rw [hst, hsuffix, hgz]
    by_cases hok : fd.gzHeaderOk <;> simp [hok]
  · simp only [outputObject]
    rw [hst, hsuffix, hngz]
    simp

/-- C3 counterexample: for the folder-marker key `a.gz/` (which does not
end in `.gz`) the cleaned local path is `.../a.gz`, so the output phase
applies gzip to it — and fails on the empty non-gzip file instead of
emitting its raw content. -/
theorem c3_counterexample :
    endsGzS (localPath "/tmp/s3cat" exObjSlash) = true
    ∧ endsGzS exObjSlash.key = false
    ∧ outputObject exStoreSlash "/tmp/s3cat" exObjSlash
        = .error "failed to open '/tmp/s3cat/b/a.gz' as gzip" := by
  refine ⟨by decide, by decide, rfl⟩

/-- Witness for C3 (amended) at temp root `/tmp/s3cat`, bucket `b`, key
`a.gz` with an invalid-gzip local file. -/
theorem c3_witness :
    (endsGzS (localPath (String.mk ('/' :: "tmp/s3cat".data)) exObjGz) = endsGzS exObjGz.key)
    ∧ (exStoreSlash (localPath (String.mk ('/' :: "tmp/s3cat".data)) exObjGz) = some exFileNoGz →
        (endsGzS exObjGz.key = true →
          outputObject exStoreSlash (String.mk ('/' :: "tmp/s3cat".data)) exObjGz
            = (if exFileNoGz.gzHeaderOk then .ok exFileNoGz.gzLines
               else .error ("failed to open '"
                 ++ localPath (String.mk ('/' :: "tmp/s3cat".data)) exObjGz ++ "' as gzip")))
        ∧ (endsGzS exObjGz.key = false →
          outputObject exStoreSlash (String.mk ('/' :: "tmp/s3cat".data)) exObjGz
            = .ok exFileNoGz.rawLines)) :=
  c3_gz_iff_key exObjGz "tmp/s3cat".data exStoreSlash exFileNoGz
    (by decide) (by decide) (by decide)

/-! ## Helper lemmas: the store and the download phase -/

lemma updStore_same (st : Store) (p : String) (d : FileData) : updStore st p d p = some d := by
  simp [updStore]

lemma updStore_other (st : Store) (p q : String) (d : FileData) (h : q ≠ p) :
    updStore st p d q = st q := by
  simp [updStore, h]

lemma updStore_comm (st : Store) (p q : String) (d d' : FileData) (h : p ≠ q) :
    updStore (updStore st p d) q d' = updStore (updStore st q d') p d := by
  funext r
  unfold updStore
  by_cases hq : r = q <;> by_cases hp : r = p
  · exact absurd (hp.symm.trans hq) h
  · rw [if_pos hq, if_neg hp, if_pos hq]
  · rw [if_neg hq, if_pos hp, if_pos hp]
  · rw [if_neg hq, if_neg hp, if_neg hp, if_neg hq]

lemma writeAll_cons (remote : Obj → FileData) (tmp : String) (o : Obj) (os : List Obj)
    (st : Store) :
    writeAll remote tmp (o :: os) st
      = writeAll remote tmp os (updStore st (localPath tmp o) (remote o)) := rfl

lemma writeAll_notMem (remote : Obj → FileData) (tmp : String) (dl : List Obj) :
    ∀ (st : Store) (p : String), (∀ o' ∈ dl, localPath tmp o' ≠ p) →
      writeAll remote tmp dl st p = st p := by
  induction dl with
  | nil => intro st p _; rfl
  | cons o os ih =>
    intro st p h
    rw [writeAll_cons, ih _ p (fun x m => h x (List.mem_cons_of_mem _ m))]
    exact updStore_other st _ p _ (fun e => h o (List.mem_cons_self o os) e.symm)

lemma writeAll_mem (remote : Obj → FileData) (tmp : String) (dl : List Obj) :
    ∀ (st : Store) (o : Obj), o ∈ dl →
      dl.Pairwise (fun a b => localPath tmp a ≠ localPath tmp b) →
      writeAll remote tmp dl st (localPath tmp o) = some (remote o) := by
  induction dl with
  | nil => intro st o hmem _; cases hmem
  | cons o' os ih =>
    intro st o hmem hdist
    rcases List.mem_cons.mp hmem with he | hmem2
    · subst he
      rw [writeAll_cons, writeAll_notMem remote tmp os _ _
        (fun x m e => (List.rel_of_pairwise_cons hdist m) e.symm)]
      exact updStore_same st _ _
    · exact ih _ o hmem2 hdist.of_cons

lemma writeAll_perm (remote : Obj → FileData) (tmp : String) :
    ∀ (dl dl' : List Obj), dl.Perm dl' →
      dl.Pairwise (fun a b => localPath tmp a ≠ localPath tmp b) →
      ∀ st : Store, writeAll remote tmp dl st = writeAll remote tmp dl' st := by
  intro dl dl' hp
  induction hp with
  | nil => intro _ st; rfl
  | cons x hpl ih =>
    intro hdist st
    rw [writeAll_cons, writeAll_cons, ih hdist.of_cons]
  | swap a b l =>
    intro hdist st
    rw [writeAll_cons, writeAll_cons, writeAll_cons, writeAll_cons,
      updStore_comm st _ _ _ _ (List.rel_of_pairwise_cons hdist (List.mem_cons_self a l))]
  | trans h12 h23 ih12 ih23 =>
    intro hdist st
    rw [ih12 hdist st,
      ih23 ((h12.pairwise_iff (fun hab => Ne.symm hab)).mp hdist) st]

lemma outputPhase_flat (st : Store) (tmp : String) :
    ∀ (objs : List Obj) (f : Obj → List String),
      (∀ o ∈ objs, outputObject st tmp o = .ok (f o)) →
      outputPhase st tmp objs = .ok (objs.flatMap f) := by
  intro objs f h
  induction objs with
  | nil => rfl
  | cons o os ih =>
    rw [outputPhase, h o (List.mem_cons_self o os),
      ih (fun x m => h x (List.mem_cons_of_mem _ m))]
    simp [List.flatMap_cons]

/-- C7: the output phase emits objects in exactly the listing order, as a
single sequential pass — the emitted stream is the in-order concatenation
of the per-object line lists — and the store the downloads produce (hence
everything the output phase reads) is identical for every
download-completion order (any permutation of the download list), given
the distinct local paths of distinct objects. -/
theorem c7_output_order :
    ∀ (remote : Obj → FileData) (tmp : String) (objs dl dl' : List Obj) (st0 : Store)
      (f : Obj → List String),
      dl.Perm dl' →
      dl.Pairwise (fun a b => localPath tmp a ≠ localPath tmp b) →
      writeAll remote tmp dl st0 = writeAll remote tmp dl' st0
      ∧ ((∀ o ∈ objs, outputObject (writeAll remote tmp dl st0) tmp o = .ok (f o)) →
          outputPhase (writeAll remote tmp dl st0) tmp objs = .ok (objs.flatMap f)) := by
  intro remote tmp objs dl dl' st0 f hp hdist
  exact ⟨writeAll_perm remote tmp dl dl' hp hdist st0,
    fun h => outputPhase_flat _ tmp objs f h⟩

/-- Witness for C7: two objects downloaded in either completion order give
the same store, and emission is in listing order `ax` then `by`. -/
theorem c7_witness :
    outputPhase (writeAll exRemote "/t" [exObjA, exObjB] exEmptyStore) "/t" [exObjA, exObjB]
      = .ok ["ax", "by"]
    ∧ writeAll exRemote "/t" [exObjA, exObjB] exEmptyStore
      = writeAll exRemote "/t" [exObjB, exObjA] exEmptyStore := by
  have h := c7_output_order exRemote "/t" [exObjA, exObjB] [exObjA, exObjB] [exObjB, exObjA]
    exEmptyStore (fun o => (exRemote o).rawLines)
    (List.Perm.swap exObjB exObjA []) (by decide)
  refine ⟨?_, h.1⟩
  have h2 := h.2 (by intro o ho; fin_cases ho <;> rfl)
  exact h2

/-! ## C9: round trip -/

lemma downloadPhase_at (remote : Obj → FileData) (tmp : String) :
    ∀ (objs : List Obj) (st0 st : Store),
      objs.Pairwise (fun a b => localPath tmp a ≠ localPath tmp b) →
      (∀ o ∈ objs, st (localPath tmp o) = st0 (localPath tmp o)) →
      ∀ o ∈ objs,
        writeAll remote tmp (dlList st0 tmp objs) st (localPath tmp o)
          = if isCached st0 tmp o then st0 (localPath tmp o) else some (remote o) := by
  intro objs
  induction objs with
  | nil => intro st0 st _ _ o hmem; cases hmem
  | cons o' os ih =>
    intro st0 st hdist hagree o hmem
    by_cases hc : isCached st0 tmp o'
    · have hdl : dlList st0 tmp (o' :: os) = dlList st0 tmp os := by
        simp [dlList, List.filter_cons, hc]
      rw [hdl]
      rcases List.mem_cons.mp hmem with he | hmem2
      · subst he
        rw [writeAll_notMem remote tmp (dlList st0 tmp os) st (localPath tmp o)
          (fun x m e => (List.rel_of_pairwise_cons hdist (List.mem_of_mem_filter m)) e.symm),
          hagree o (List.mem_cons_self o os), if_pos hc]
      · exact ih st0 st hdist.of_cons
          (fun x m => hagree x (List.mem_cons_of_mem _ m)) o hmem2
    · have hdl : dlList st0 tmp (o' :: os) = o' :: dlList st0 tmp os := by
        simp [dlList, List.filter_cons, hc]
      rw [hdl, writeAll_cons]
      rcases List.mem_cons.mp hmem with he | hmem2
      · subst he
        rw [writeAll_notMem remote tmp (dlList st0 tmp os)
          (updStore st (localPath tmp o) (remote o)) (localPath tmp o)
          (fun x m e => (List.rel_of_pairwise_cons hdist (List.mem_of_mem_filter m)) e.symm),
          updStore_same, if_neg hc]
      · have hagree2 : ∀ x ∈ os,
            updStore st (localPath tmp o') (remote o') (localPath tmp x)
              = st0 (localPath tmp x) := by
          intro x m
          rw [updStore_other st _ _ _
            (fun e => (List.rel_of_pairwise_cons hdist m) e.symm), hagree x (List.mem_cons_of_mem _ m)]
        exact ih st0 _ hdist.of_cons hagree2 o hmem2

/-- C9: under distinct local paths and listing sizes that match the bodies
(no remote change), a run's download phase leaves, for every object, a
local file of exactly its listed size at its deterministic path; a second
run then finds every object cached, downloads nothing (its download list
is empty and the store is untouched), and its output phase reads the
identical store, emitting the same content. -/
theorem c9_round_trip :
    ∀ (remote : Obj → FileData) (tmp : String) (objs : List Obj) (st0 : Store),
      objs.Pairwise (fun a b => localPath tmp a ≠ localPath tmp b) →
      (∀ o ∈ objs, (remote o).size = o.listedSize) →
      (∀ o ∈ objs, ∃ fd, downloadPhase remote tmp objs st0 (localPath tmp o) = some fd
          ∧ fd.size = o.listedSize)
      ∧ (∀ o ∈ objs, isCached (downloadPhase remote tmp objs st0) tmp o = true)
      ∧ dlList (downloadPhase remote tmp objs st0) tmp objs = []
      ∧ downloadPhase remote tmp objs (downloadPhase remote tmp objs st0)
          = downloadPhase remote tmp objs st0
      ∧ outputPhase (downloadPhase remote tmp objs (downloadPhase remote tmp objs st0)) tmp objs
          = outputPhase (downloadPhase remote tmp objs st0) tmp objs := by
  intro remote tmp objs st0 hdist hsize
  have hat := downloadPhase_at remote tmp objs st0 st0 hdist (fun _ _ => rfl)
  have h1 : ∀ o ∈ objs, ∃ fd, downloadPhase remote tmp objs st0 (localPath tmp o) = some fd
      ∧ fd.size = o.listedSize := by
    intro o hmem
    have hv := hat o hmem
    by_cases hc : isCached st0 tmp o
    · rw [if_pos hc] at hv
      unfold isCached at hc
      cases hst : st0 (localPath tmp o) with
      | none => rw [hst] at hc; cases hc
      | some fd =>
        rw [hst] at hc
        have hc2 : (fd.size == o.listedSize) = true := hc
        refine ⟨fd, ?_, by simpa using hc2⟩
        show downloadPhase remote tmp objs st0 (localPath tmp o) = some fd
        rw [show downloadPhase remote tmp objs st0
            = writeAll remote tmp (dlList st0 tmp objs) st0 from rfl, hv, hst]
    · rw [if_neg hc] at hv
      exact ⟨remote o, hv, hsize o hmem⟩
  have h2 : ∀ o ∈ objs, isCached (downloadPhase remote tmp objs st0) tmp o = true := by
    intro o hmem
    obtain ⟨fd, hfd, hsz⟩ := h1 o hmem
    unfold isCached
    rw [hfd]
    simp [hsz]
  have h3 : dlList (downloadPhase remote tmp objs st0) tmp objs = [] := by
    unfold dlList
    rw [List.filter_eq_nil_iff]
    intro o hmem
    simp [h2 o hmem]
  have h4 : downloadPhase remote tmp objs (downloadPhase remote tmp objs st0)
      = downloadPhase remote tmp objs st0 := by
    rw [show downloadPhase remote tmp objs (downloadPhase remote tmp objs st0)
        = writeAll remote tmp (dlList (downloadPhase remote tmp objs st0) tmp objs)
            (downloadPhase remote tmp objs st0) from rfl, h3]
    rfl
  exact ⟨h1, h2, h3, h4, by rw [h4]⟩

/-- Witness for C9 at two concrete objects downloaded into an empty temp
directory. -/
theorem c9_witness :
    (∀ o ∈ [exObjA, exObjB], ∃ fd,
        downloadPhase exRemote "/t" [exObjA, exObjB] exEmptyStore (localPath "/t" o) = some fd
        ∧ fd.size = o.listedSize)
    ∧ (∀ o ∈ [exObjA, exObjB],
        isCached (downloadPhase exRemote "/t" [exObjA, exObjB] exEmptyStore) "/t" o = true)
    ∧ dlList (downloadPhase exRemote "/t" [exObjA, exObjB] exEmptyStore) "/t" [exObjA, exObjB] = []
    ∧ downloadPhase exRemote "/t" [exObjA, exObjB]
        (downloadPhase exRemote "/t" [exObjA, exObjB] exEmptyStore)
        = downloadPhase exRemote "/t" [exObjA, exObjB] exEmptyStore
    ∧ outputPhase (downloadPhase exRemote "/t" [exObjA, exObjB]
          (downloadPhase exRemote "/t" [exObjA, exObjB] exEmptyStore)) "/t" [exObjA, exObjB]
        = outputPhase (downloadPhase exRemote "/t" [exObjA, exObjB] exEmptyStore) "/t"
            [exObjA, exObjB] :=
  c9_round_trip exRemote "/t" [exObjA, exObjB] exEmptyStore (by decide) (by decide)

/-! ## Helper lemmas: the scheduler -/

lemma applyAct_fields (s s' : SchedState) (a : SchedAct) (h : applyAct s a = some s') :
    s'.tasks = s.tasks ∧ s'.cap = s.cap := by
  cases a with
  | spawn =>
    simp only [applyAct] at h
    split at h
    · cases h
      exact ⟨rfl, rfl⟩
    · cases h
  | finish i =>
    simp only [applyAct] at h
    split at h
    · cases h
      exact ⟨rfl, rfl⟩
    · cases h

lemma applyAct_inv (s s' : SchedState) (a : SchedAct) (hinv : SchedInv s)
    (h : applyAct s a = some s') : SchedInv s' := by
  obtain ⟨h1, h2, h3⟩ := hinv
  cases a with
  | spawn =>
    simp only [applyAct] at h
    split at h
    case isTrue hcond =>
      cases h
      exact ⟨h1, by simpa using hcond.2, h3⟩
    case isFalse => cases h
  | finish i =>
    simp only [applyAct] at h
    split at h
    case isTrue hmem =>
      cases h
      refine ⟨?_, ?_, ?_⟩
      · show (s.cancelled || _) = (s.firstErr <|> _).isSome
        cases hf : s.firstErr with
        | some e =>
          rw [hf] at h1
          simp [h1]
        | none =>
          rw [hf] at h1
          simp [h1]
      · exact le_trans (List.erase_sublist i s.running).length_le h2
      · intro hfe j hj
        show s.tasks.getD j none = none
        have hfe' : (s.firstErr <|> (if s.cancelled then some ctxErr
            else s.tasks.getD i none)) = none := hfe
        cases hf : s.firstErr with
        | some e => rw [hf] at hfe'; cases hfe'
        | none =>
          rw [hf] at hfe'
          simp only [Option.none_orElse] at hfe'
          have hc : s.cancelled = false := by
            rw [hf] at h1
            simpa using h1
          rw [hc] at hfe'
          simp only [if_neg Bool.false_ne_true] at hfe'
          rcases List.mem_cons.mp hj with he | hj2
          · rw [he]
            exact hfe'
          · exact h3 hf j hj2
    case isFalse => cases h

lemma runActs_inv : ∀ (acts : List SchedAct) (s s' : SchedState), SchedInv s →
    runActs s acts = some s' → SchedInv s' ∧ s'.tasks = s.tasks ∧ s'.cap = s.cap := by
  intro acts
  induction acts with
  | nil =>
    intro s s' hinv h
    cases h
    exact ⟨hinv, rfl, rfl⟩
  | cons a as ih =>
    intro s s' hinv h
    rw [runActs] at h
    cases ha : applyAct s a with
    | none => rw [ha] at h; cases h
    | some s1 =>
      rw [ha] at h
      obtain ⟨hi, ht, hc⟩ := ih s1 s' (applyAct_inv s s1 a hinv ha) h
      obtain ⟨ht2, hc2⟩ := applyAct_fields s s1 a ha
      exact ⟨hi, ht.trans ht2, hc.trans hc2⟩

lemma initSched_inv (tasks : List (Option String)) (cap : Nat) :
    SchedInv (initSched tasks cap) := by
  refine ⟨rfl, by simp [initSched], fun _ i hi => ?_⟩
  cases hi

lemma applyAct_firstErr_mono (s s' : SchedState) (a : SchedAct) (e : String)
    (hf : s.firstErr = some e) (h : applyAct s a = some s') : s'.firstErr = some e := by
  cases a with
  | spawn =>
    simp only [applyAct] at h
    split at h
    · cases h; exact hf
    · cases h
  | finish i =>
    simp only [applyAct] at h
    split at h
    · cases h
      show (s.firstErr <|> _) = some e
      rw [hf]
      rfl
    · cases h

lemma applyAct_cancel_mono (s s' : SchedState) (a : SchedAct)
    (hc : s.cancelled = true) (h : applyAct s a = some s') : s'.cancelled = true := by
  cases a with
  | spawn =>
    simp only [applyAct] at h
    split at h
    · cases h; exact hc
    · cases h
  | finish i =>
    simp only [applyAct] at h
    split at h
    · cases h
      show (s.cancelled || _) = true
      rw [hc]
      rfl
    · cases h

lemma runActs_firstErr_mono : ∀ (acts : List SchedAct) (s s' : SchedState) (e : String),
    s.firstErr = some e → runActs s acts = some s' → s'.firstErr = some e := by
  intro acts
  induction acts with
  | nil =>
    intro s s' e hf h
    cases h
    exact hf
  | cons a as ih =>
    intro s s' e hf h
    rw [runActs] at h
    cases ha : applyAct s a with
    | none => rw [ha] at h; cases h
    | some s1 =>
      rw [ha] at h
      exact ih s1 s' e (applyAct_firstErr_mono s s1 a e hf ha) h

lemma runActs_cancel_mono : ∀ (acts : List SchedAct) (s s' : SchedState),
    s.cancelled = true → runActs s acts = some s' → s'.cancelled = true := by
  intro acts
  induction acts with
  | nil =>
    intro s s' hc h
    cases h
    exact hc
  | cons a as ih =>
    intro s s' hc h
    rw [runActs] at h
    cases ha : applyAct s a with
    | none => rw [ha] at h; cases h
    | some s1 =>
      rw [ha] at h
      exact ih s1 s' (applyAct_cancel_mono s s1 a hc ha) h

/-- C1 amended: for every reachable scheduler state, the recorded first
error is final (`errgroup.Wait` reports it), cancellation is permanent and
coincides with an error having been recorded, every task that executes
after cancellation still creates/truncates its destination file and its
(cancellation) error is discarded in favour of the first one — and the
main loop's spawn step stays enabled after cancellation whenever a task
is pending and a slot is free, the new task being recorded as spawned
after cancellation.  (The original claim that no such task starts is
refuted by `c1_counterexample`.) -/
theorem c1_first_error_wins :
    ∀ (tasks : List (Option String)) (cap : Nat) (acts : List SchedAct) (s : SchedState),
      runActs (initSched tasks cap) acts = some s →
      (∀ (e : String) (acts' : List SchedAct) (s' : SchedState),
          s.firstErr = some e → runActs s acts' = some s' → s'.firstErr = some e)
      ∧ (∀ (acts' : List SchedAct) (s' : SchedState),
          s.cancelled = true → runActs s acts' = some s' → s'.cancelled = true)
      ∧ (∀ (i : Nat) (s' : SchedState), s.cancelled = true →
          applyAct s (SchedAct.finish i) = some s' →
          s'.firstErr = s.firstErr ∧ i ∈ s'.created)
      ∧ (s.cancelled = true → s.nextIdx < s.tasks.length → s.running.length < s.cap →
          applyAct s SchedAct.spawn
            = some { s with
                nextIdx := s.nextIdx + 1
                running := s.nextIdx :: s.running
                lateSpawns := s.nextIdx :: s.lateSpawns })
      ∧ s.cancelled = s.firstErr.isSome := by
  intro tasks cap acts s hrun
  have hinv := (runActs_inv acts (initSched tasks cap) s (initSched_inv tasks cap) hrun).1
  refine ⟨fun e acts' s' hf h => runActs_firstErr_mono acts' s s' e hf h,
    fun acts' s' hc h => runActs_cancel_mono acts' s s' hc h,
    fun i s' hc h => ?_, fun hc hn hr => ?_, hinv.1⟩
  · obtain ⟨e, hf⟩ : ∃ e, s.firstErr = some e := by
      have := hinv.1
      rw [hc] at this
      cases hfe : s.firstErr with
      | none => rw [hfe] at this; cases this
      | some e => exact ⟨e, rfl⟩
    simp only [applyAct] at h
    split at h
    case isTrue hmem =>
      cases h
      constructor
      · show (s.firstErr <|> _) = s.firstErr
        rw [hf]
        rfl
      · exact List.mem_cons_self i _
    case isFalse => cases h
  · simp only [applyAct]
    rw [if_pos ⟨hn, hr⟩, hc]
    rfl

/-- C1 counterexample: tasks `[fail "boom", succeed]` under concurrency 1.
After task 0 fails and cancellation propagates, the main loop still
acquires the freed slot and spawns task 1 (`lateSpawns = [1]`), whose
destination file is created/truncated (`1 ∈ created`) before its download
fails with the context error; the run's reported error is still the first
one.  This refutes the claim that no task that had not yet acquired a slot
at cancellation begins executing. -/
theorem c1_counterexample :
    runActs (initSched [some "boom", none] 1)
        [SchedAct.spawn, SchedAct.finish 0, SchedAct.spawn, SchedAct.finish 1]
      = some exSchedFin
    ∧ exSchedFin.lateSpawns = [1]
    ∧ 1 ∈ exSchedFin.created
    ∧ exSchedFin.firstErr = some "boom"
    ∧ exSchedFin.nextIdx = 2
    ∧ exSchedFin.running = [] := by
  refine ⟨by decide, rfl, by decide, rfl, rfl, rfl⟩

/-- Witness for C1 (amended): from the state reached after task 0's
failure, the remaining trace still runs and the final reported error is
the first one. -/
theorem c1_witness :
    runActs exSchedMid [SchedAct.spawn, SchedAct.finish 1] = some exSchedFin
    ∧ exSchedFin.firstErr = some "boom" := by
  have h := c1_first_error_wins [some "boom", none] 1
    [SchedAct.spawn, SchedAct.finish 0] exSchedMid (by decide)
  exact ⟨by decide, h.1 "boom" [SchedAct.spawn, SchedAct.finish 1] exSchedFin rfl (by decide)⟩

/-! ## C10: the admission gate -/

/-- C10: the concurrency value is used unvalidated to build the gate.  For
any capacity the gate bounds the running tasks by the capacity; with
capacity 0 and pending work, no scheduler step is ever enabled — the
initial slot acquisition blocks forever; and a negative configured value
makes the gate construction itself fail, while any non-negative value is
accepted. -/
theorem c10_admission_gate :
    ∀ (tasks : List (Option String)) (cap : Nat) (acts : List SchedAct) (s : SchedState)
      (n : Int),
      (runActs (initSched tasks cap) acts = some s → s.running.length ≤ cap)
      ∧ (tasks ≠ [] → ∀ a, applyAct (initSched tasks 0) a = none)
      ∧ (n < 0 → mkSem n = none)
      ∧ (0 ≤ n → mkSem n = some n.toNat) := by
  intro tasks cap acts s n
  refine ⟨fun h => ?_, fun _ a => ?_, fun hneg => ?_, fun hpos => ?_⟩
  · obtain ⟨hinv, _, hcap⟩ := runActs_inv acts (initSched tasks cap) s
      (initSched_inv tasks cap) h
    have hcap2 : s.cap = cap := hcap
    rw [← hcap2]
    exact hinv.2.1
  · cases a with
    | spawn => simp [applyAct, initSched]
    | finish i => simp [applyAct, initSched]
  · rw [mkSem, if_pos hneg]
  · rw [mkSem, if_neg (by omega)]

/-- Witness for C10 at concrete capacities and concurrency values. -/
theorem c10_witness :
    exSchedOne.running.length ≤ 2
    ∧ applyAct (initSched [none] 0) SchedAct.spawn = none
    ∧ mkSem (-3) = none
    ∧ mkSem 4 = some 4 := by
  have h := c10_admission_gate [none, none] 2 [SchedAct.spawn] exSchedOne (-3)
  have h4 := c10_admission_gate [none] 0 [] (initSched [none] 0) 4
  exact ⟨h.1 (by decide), h4.2.1 (by decide) SchedAct.spawn, h.2.2.1 (by decide),
    h4.2.2.2 (by decide)⟩

/-! ## C2: error surfacing -/

/-- C2 counterexample: a local file whose scan ends in a read error is
emitted exactly like the same file with a clean EOF — the output phase
reports success and the error is silently discarded (`scanner.Err` is
never consulted), refuting the claim that scan-time read/decompression
errors are surfaced. -/
theorem c2_counterexample :
    outputPhase exStoreBadEnd "/tmp/s3cat" [exObjPlain] = .ok ["l1", "l2"]
    ∧ exStoreBadEnd (localPath "/tmp/s3cat" exObjPlain) = some exFileBadEnd
    ∧ exFileBadEnd.rawEnd = ScanEnd.fail "unexpected EOF"
    ∧ outputPhase exStoreBadEnd "/tmp/s3cat" [exObjPlain]
        = outputPhase exStoreOkEnd "/tmp/s3cat" [exObjPlain] :=
  ⟨rfl, rfl, rfl, rfl⟩

/-- C2 amended: every error is surfaced — listing-request failures abort
the listing with the error, a run whose scheduler records no error ran
only tasks whose downloads succeeded, and the output phase fails on an
unopenable file or an invalid gzip header — with two exceptions: the
cache check turns stat failures into "not cached" (see `c6_is_cached`),
and the scanner's terminal read/decompression error is ignored: the
emitted result is unchanged when a file's scan-end condition is replaced
by a failure. -/
theorem c2_error_surfacing :
    (∀ (bucket : String) (pre : List (List SObj)) (e : String)
        (post : List (Except String (List SObj))),
      listS3Object bucket (pre.map Except.ok ++ Except.error e :: post)
        = .error ("failed to list S3 objects : " ++ e))
    ∧ (∀ (tasks : List (Option String)) (cap : Nat) (acts : List SchedAct) (s : SchedState),
        runActs (initSched tasks cap) acts = some s → s.firstErr = none →
        ∀ i ∈ s.created, tasks.getD i none = none)
    ∧ (∀ (st : Store) (tmp : String) (o : Obj), st (localPath tmp o) = none →
        outputObject st tmp o = .error ("failed to open '" ++ localPath tmp o ++ "'"))
    ∧ (∀ (st : Store) (tmp : String) (o : Obj) (fd : FileData),
        st (localPath tmp o) = some fd → endsGzS (localPath tmp o) = true →
        fd.gzHeaderOk = false →
        outputObject st tmp o = .error ("failed to open '" ++ localPath tmp o ++ "' as gzip"))
    ∧ (∀ (st : Store) (tmp : String) (o : Obj) (fd : FileData) (e1 e2 : String),
        st (localPath tmp o) = some fd →
        outputObject (updStore st (localPath tmp o)
            { fd with rawEnd := ScanEnd.fail e1, gzEnd := ScanEnd.fail e2 }) tmp o
          = outputObject st tmp o) := by
  refine ⟨?_, ?_, ?_, ?_, ?_⟩
  · intro bucket pre e post
    induction pre with
    | nil => rfl
    | cons pg pgs ih => simp [listS3Object, ih]
  · intro tasks cap acts s hrun hnone i hi
    obtain ⟨hinv, htasks, _⟩ := runActs_inv acts (initSched tasks cap) s
      (initSched_inv tasks cap) hrun
    have h := hinv.2.2 hnone i hi
    have htasks2 : s.tasks = tasks := htasks
    rw [htasks2] at h
    exact h
  · intro st tmp o hst
    simp only [outputObject]
    rw [hst]
  · intro st tmp o fd hst hgz hok
    simp only [outputObject]
    rw [hst, hgz]
    simp [hok]
  · intro st tmp o fd e1 e2 hst
    simp only [outputObject]
    rw [hst, updStore_same]

/-- Witness for C2 (amended) at a failing second page and a missing local
file. -/
theorem c2_witness :
    listS3Object "b" ([[{ key := "k", size := 1 }]].map Except.ok ++ Except.error "boom" :: [])
      = .error "failed to list S3 objects : boom"
    ∧ outputObject exEmptyStore "/tmp/s3cat" exObjPlain
        = .error ("failed to open '" ++ localPath "/tmp/s3cat" exObjPlain ++ "'") :=
  ⟨c2_error_surfacing.1 "b" [[{ key := "k", size := 1 }]] "boom" [],
   c2_error_surfacing.2.2.1 exEmptyStore "/tmp/s3cat" exObjPlain rfl⟩

end S3Cat
